import Mathlib

/-!
Verification development for the Novartis annual-report extraction engine
(`parser.py` / `config.py`).  The Python functions are shallowly embedded as
executable Lean definitions over `List Char` / `String`; Python floats are
modelled as exact rationals (`ℚ`), since every numeric fact proved here is far
below any precision boundary.  ASCII semantics are assumed for case folding,
whitespace and digit classes (every keyword, alias and page text in scope is
ASCII).
-/

/- The Mathlib build ships the core rational arithmetic marked irreducible;
the concrete evaluations below need these definitions to reduce. -/
attribute [local semireducible] Rat.add Rat.sub Rat.mul

/-! ### Character classes and low-level string operations -/

/-- ASCII model of Python's whitespace class (`str.split`, `\s`, `str.strip`):
space, tab, newline, carriage return, vertical tab, form feed. -/
def isPySpace (c : Char) : Bool :=
  decide (c.toNat = 32) || decide (c.toNat = 9) || decide (c.toNat = 10) ||
    decide (c.toNat = 13) || decide (c.toNat = 11) || decide (c.toNat = 12)

/-- ASCII model of the regex class `\d`: the characters `'0'`-`'9'`. -/
def isPyDigit (c : Char) : Bool := decide (48 ≤ c.toNat) && decide (c.toNat ≤ 57)

/-- ASCII model of the regex class `\w` (used by the `\b` word boundary). -/
def isWordChar (c : Char) : Bool := c.isAlphanum || c == '_'

/-- Python `str.lower()` on the ASCII fragment. -/
def lowerL (l : List Char) : List Char := l.map Char.toLower

/-- Does `hay` start with `needle`? -/
def startsWithL : List Char → List Char → Bool
  | [], _ => true
  | _ :: _, [] => false
  | n :: ns, h :: hs => n == h && startsWithL ns hs

/-- Python's substring test `needle in hay`. -/
def containsSub (needle : List Char) : List Char → Bool
  | [] => startsWithL needle []
  | c :: hs => startsWithL needle (c :: hs) || containsSub needle hs

/-- Remove `pre` from the front of a list, returning the remainder. -/
def dropExact : List Char → List Char → Option (List Char)
  | [], rest => some rest
  | _ :: _, [] => none
  | p :: ps, c :: cs => if p == c then dropExact ps cs else none

/-- Python `text.split('\n')` (keeps empty segments). -/
def splitLines : List Char → List (List Char)
  | [] => [[]]
  | c :: t =>
    if c == '\n' then [] :: splitLines t
    else
      match splitLines t with
      | [] => [[c]]
      | l :: ls => (c :: l) :: ls

def pySplitAux : List Char → List Char → List (List Char)
  | [], cur => if cur = [] then [] else [cur.reverse]
  | c :: t, cur =>
    if isPySpace c then
      if cur = [] then pySplitAux t [] else cur.reverse :: pySplitAux t []
    else pySplitAux t (c :: cur)

/-- Python `str.split()` with no argument: split on whitespace runs, dropping
empty tokens. -/
def pySplit (l : List Char) : List (List Char) := pySplitAux l []

def digitRunsAux : List Char → List Char → List (List Char)
  | [], cur => if cur = [] then [] else [cur.reverse]
  | c :: t, cur =>
    if isPyDigit c then digitRunsAux t (c :: cur)
    else if cur = [] then digitRunsAux t []
    else cur.reverse :: digitRunsAux t []

/-- `re.findall(r'\d+', line)`: the maximal digit runs of the line, in order. -/
def digitRuns (l : List Char) : List (List Char) := digitRunsAux l []

/-- Python `str.strip()`: drop whitespace from both ends. -/
def stripEnds (l : List Char) : List Char :=
  ((l.dropWhile isPySpace).reverse.dropWhile isPySpace).reverse

/-! ### Numeric parsing (`float(...)` on the fragment that occurs here) -/

def digitVal (c : Char) : Nat := c.toNat - 48

/-- Value of a digit string read in base 10, as Python `float` does for a
string of digits (leading zeros allowed). -/
def natOfDigits (l : List Char) : Nat := l.foldl (fun a c => 10 * a + digitVal c) 0

/-- Python `float(s)` for an unsigned decimal literal: digits with an optional
decimal point (`"13432"`, `"1."`, `".5"`).  Exponent notation and the
`inf`/`nan` spellings are outside the fragment exercised by this code path
(every string reaching it is built from digit runs) and are not modelled. -/
def parseUnsigned? (l : List Char) : Option ℚ :=
  let ip := l.takeWhile isPyDigit
  let rest := l.dropWhile isPyDigit
  match rest with
  | [] => if ip = [] then none else some ((natOfDigits ip : ℚ))
  | '.' :: fr =>
    if fr.all isPyDigit && !(ip = [] && fr = []) then
      some ((natOfDigits ip : ℚ) + (natOfDigits fr : ℚ) / (10 : ℚ) ^ fr.length)
    else none
  | _ => none

/-- Python `float(s)` including an optional sign. -/
def parseDecimal? (l : List Char) : Option ℚ :=
  match l with
  | '+' :: t => parseUnsigned? t
  | '-' :: t => (parseUnsigned? t).map (fun q => -q)
  | _ => parseUnsigned? l

/-- `NovartisPDFParser.clean_number`: reject `''`/`'nan'`, strip spaces,
commas and non-breaking spaces, trim, then convert to float (`none` on
conversion failure). -/
def cleanNumber (l : List Char) : Option ℚ :=
  if l = [] ∨ l = ("nan".data) then none
  else
    parseDecimal?
      (stripEnds (l.filter (fun c => !(c == ' ' || c == ',' || c == Char.ofNat 160))))

/-! ### Configuration (`config.py`) -/

/-- The asset-class keys of `config.PDF_ASSET_NAMES` (the Python key
`'HEDGEFUNDS/PRIVATEEQUITY'` is spelled with an underscore). -/
inductive AssetClass where
  | INFRASTRUCTURE
  | CASH
  | MORTGAGES
  | BONDS
  | EQUITIES
  | REALESTATE
  | HEDGEFUNDS_PRIVATEEQUITY
  | CURRENCYOVERLAY
  | COLLATERAL
  | TOTAL
deriving DecidableEq

/-- All asset classes, in the insertion order of `config.PDF_ASSET_NAMES`. -/
def allClasses : List AssetClass :=
  [AssetClass.INFRASTRUCTURE, AssetClass.CASH, AssetClass.MORTGAGES, AssetClass.BONDS,
   AssetClass.EQUITIES, AssetClass.REALESTATE, AssetClass.HEDGEFUNDS_PRIVATEEQUITY,
   AssetClass.CURRENCYOVERLAY, AssetClass.COLLATERAL, AssetClass.TOTAL]

/-- `config.PDF_ASSET_NAMES`: per-class alias lists, in source order. -/
def PDF_ASSET_NAMES : AssetClass → List String
  | AssetClass.INFRASTRUCTURE => ["Infrastructure investments", "Infrastructure"]
  | AssetClass.CASH => ["Liquidity deposits", "Liquidity / Receivables", "Liquidity", "Receivables"]
  | AssetClass.MORTGAGES => ["Mortgages"]
  | AssetClass.BONDS => ["Bonds"]
  | AssetClass.EQUITIES => ["Shares", "Equities"]
  | AssetClass.REALESTATE => ["Real estate investments", "Real estate"]
  | AssetClass.HEDGEFUNDS_PRIVATEEQUITY =>
      ["Hedge funds and private equity", "Hedge Funds / Private Equity"]
  | AssetClass.CURRENCYOVERLAY => ["Currency overlay"]
  | AssetClass.COLLATERAL => ["Collateral"]
  | AssetClass.TOTAL => ["Total assets"]

/-- `config.PDF_CHART_KEYWORDS`. -/
def PDF_CHART_KEYWORDS : List String :=
  ["The composition of assets breaks down as follows:",
   "The composition of assets",
   "composition of assets"]

def PERCENTAGE_TOLERANCE : ℚ := 2

def VALIDATE_PERCENTAGE_TOTAL : Bool := true

def REQUIRE_ALL_ASSETS : Bool := true

/-- The assets of the `config.OUTPUT_COLUMNS` entries whose metric is
`ACTUALALLOCATION` (the required-assets check in `parse_pdf`). -/
def requiredAssets : List AssetClass :=
  [AssetClass.INFRASTRUCTURE, AssetClass.CASH, AssetClass.MORTGAGES, AssetClass.BONDS,
   AssetClass.EQUITIES, AssetClass.REALESTATE, AssetClass.HEDGEFUNDS_PRIVATEEQUITY]

/-! ### Allocation percentage extraction (`extract_percentages_from_text`) -/

/-- Attempt the pattern `alias` `\s+` `(\d+)` `%` anchored at the current
position.  `al` and `s` are already lower-cased (the case-insensitive flag on
the original pattern).  Because the whitespace, digit and `%` classes are
pairwise disjoint, the regex engine's greedy match at a position is exactly
this deterministic decomposition; the returned value is the captured integer
group converted by `float`. -/
def matchPctHere (al : List Char) (s : List Char) : Option Nat :=
  match dropExact al s with
  | none => none
  | some r1 =>
    let sp := r1.takeWhile isPySpace
    let r2 := r1.dropWhile isPySpace
    if sp = [] then none
    else
      let ds := r2.takeWhile isPyDigit
      let r3 := r2.dropWhile isPyDigit
      if ds = [] then none
      else
        match r3 with
        | '%' :: _ => some (natOfDigits ds)
        | _ => none

/-- `re.search` for the alias pattern: leftmost position at which
`matchPctHere` succeeds.  (The pattern ends in `\s+(\d+)%` and so can never
match at the empty suffix; the empty string is reported as no match
directly.) -/
def aliasSearch (al : List Char) : List Char → Option Nat
  | [] => none
  | c :: t =>
    match matchPctHere al (c :: t) with
    | some n => some n
    | none => aliasSearch al t

/-- `extract_percentages_from_text`: for each asset class, try its aliases in
order and keep the first alias whose pattern matches (the `break`).  The
Python dict is modelled as a partial map; a class with no matching alias is
absent (`none`). -/
def extract_percentages_from_text (text : String) : AssetClass → Option ℚ :=
  fun c =>
    (PDF_ASSET_NAMES c).findSome?
      (fun a =>
        match aliasSearch (lowerL (a.data)) (lowerL (text.data)) with
        | some n => some ((n : ℚ))
        | none => none)

/-! ### Section location (`find_composition_section`, `find_balance_sheet_page`) -/

/-- Does a page text contain any of the keywords, case-insensitively? -/
def pageMatches (kws : List String) (t : String) : Bool :=
  kws.any (fun k => containsSub (lowerL (k.data)) (lowerL (t.data)))

/-- The page scan of `find_composition_section`: first page (smallest index)
containing any keyword, together with its text. -/
def locateSection (kws : List String) : List String → Option (Nat × String)
  | [] => none
  | t :: rest =>
    if pageMatches kws t then some (0, t)
    else (locateSection kws rest).map (fun p => (p.1 + 1, p.2))

/-- `find_composition_section`, with the pages' extracted texts as input. -/
def find_composition_section (pages : List String) : Option (Nat × String) :=
  locateSection PDF_CHART_KEYWORDS pages

/-- `find_balance_sheet_page`: first page whose text contains
`'balance sheet'` case-insensitively.  (The Python `if text and ...` guard is
subsumed: an empty text cannot contain the non-empty needle.) -/
def find_balance_sheet_page : List String → Option Nat
  | [] => none
  | t :: rest =>
    if containsSub ("balance sheet".data) (lowerL (t.data)) then some 0
    else (find_balance_sheet_page rest).map (fun n => n + 1)

/-! ### Total assets extraction -/

/-- The line filter of `extract_total_assets_from_table`: contains
`'total assets'` but not `'total liabilities'` (lower-cased). -/
def isTotalAssetsLine (line : List Char) : Bool :=
  containsSub ("total assets".data) (lowerL line) &&
    !containsSub ("total liabilities".data) (lowerL line)

/-- The first qualifying line of the page (the `for line in lines` loop: every
branch under the `if` returns, so only the first qualifying line is used). -/
def totalAssetsLine? (lines : List (List Char)) : Option (List Char) :=
  lines.find? isTotalAssetsLine

/-- One candidate of the first fallback tier: `clean_number` of the
concatenation, accepted if truthy and within `[10000, 50000]`
(`if val and 10000 <= val <= 50000`). -/
def qualifyPair (s : List Char) : Option ℚ :=
  match cleanNumber s with
  | some v => if v ≠ 0 ∧ 10000 ≤ v ∧ v ≤ 50000 then some v else none
  | none => none

/-- The `for i in range(len(digit_sequences) - 1)` loop: first adjacent pair
whose concatenation qualifies.  (The `len >= 2` guard is subsumed: with fewer
than two runs there is no adjacent pair.) -/
def adjacentPairValue? : List (List Char) → Option ℚ
  | a :: b :: rest =>
    (match qualifyPair (a ++ b) with
     | some v => some v
     | none => adjacentPairValue? (b :: rest))
  | _ => none

/-- One attempt of `re.search(r'\b1[34]\d{3}\b', line)` at the current
position; `prev` is the character before the position (`none` at the start of
the line).  Both `\b` are resolved against the digit inside the match, so each
reduces to the neighbour being absent or a non-word character. -/
def lastResortHere (prev : Option Char) (s : List Char) : Option (List Char) :=
  match s with
  | c1 :: c2 :: c3 :: c4 :: c5 :: rest =>
    if c1 == '1' && (c2 == '3' || c2 == '4') && isPyDigit c3 && isPyDigit c4 && isPyDigit c5
        && (match prev with | none => true | some p => !isWordChar p)
        && (match rest with | [] => true | r :: _ => !isWordChar r) then
      some [c1, c2, c3, c4, c5]
    else none
  | _ => none

/-- Leftmost match of the last-resort regex.  (The pattern is five characters
long and so can never match at the empty suffix.) -/
def lastResortSearch (prev : Option Char) : List Char → Option (List Char)
  | [] => none
  | c :: t =>
    match lastResortHere prev (c :: t) with
    | some m => some m
    | none => lastResortSearch (some c) t

/-- The last-resort tier of `extract_total_assets_fallback`: `clean_number` of
the regex match, returned only if truthy (`if val:`). -/
def lastResortValue? (line : List Char) : Option ℚ :=
  match lastResortSearch none line with
  | some m =>
    (match cleanNumber m with
     | some v => if v = 0 then none else some v
     | none => none)
  | none => none

/-- `extract_total_assets_fallback`.  (The Python method also receives the
already-split `parts`, but its body only reads `line`.) -/
def extract_total_assets_fallback (line : List Char) : Option ℚ :=
  match adjacentPairValue? (digitRuns line) with
  | some v => some v
  | none => lastResortValue? line

/-- The per-line body of `extract_total_assets_from_table`: six tokens with
the literal labels yield `clean_number(parts[2] + parts[3])` (returned even
when below 10000 — that case only logs a warning); six tokens with a label
mismatch yield `None`; any other token count routes to the fallback. -/
def extract_total_assets_from_line (line : List Char) : Option ℚ :=
  let parts := pySplit line
  if parts.length = 6 then
    if lowerL (parts.getD 0 []) = ("total".data) ∧ lowerL (parts.getD 1 []) = ("assets".data) then
      cleanNumber (parts.getD 2 [] ++ parts.getD 3 [])
    else none
  else extract_total_assets_fallback line

/-- `extract_total_assets_from_table` on the `page_num=None` path used by
`parse_pdf`: locate the balance-sheet page, split its text into lines, and
process the first qualifying `'total assets'` line. -/
def extract_total_assets_from_table (pages : List String) : Option ℚ :=
  match find_balance_sheet_page pages with
  | none => none
  | some pg =>
    let text := (pages.getD pg "").data
    if text = [] then none
    else
      match totalAssetsLine? (splitLines text) with
      | none => none
      | some line => extract_total_assets_from_line line

/-! ### Cash derivation (`calculate_cash_percentage`) and orchestrator -/

/-- The `known_assets` list of `calculate_cash_percentage`. -/
def knownAssets : List AssetClass :=
  [AssetClass.INFRASTRUCTURE, AssetClass.BONDS, AssetClass.EQUITIES,
   AssetClass.REALESTATE, AssetClass.HEDGEFUNDS_PRIVATEEQUITY]

/-- `calculate_cash_percentage`: if all five known assets are present, return
`100 - sum` when it lies in `[0, 100]`, else `None`. -/
def calculate_cash_percentage (p : AssetClass → Option ℚ) : Option ℚ :=
  if knownAssets.all (fun c => (p c).isSome) then
    let cash := 100 - (knownAssets.map (fun c => (p c).getD 0)).sum
    if 0 ≤ cash ∧ cash ≤ 100 then some cash else none
  else none

/-- The cash-derivation step of `parse_pdf` (lines 302-306): only when `CASH`
is absent, and only the `CASH` key is ever written. -/
def deriveCash (p : AssetClass → Option ℚ) : AssetClass → Option ℚ :=
  if (p AssetClass.CASH).isNone then
    match calculate_cash_percentage p with
    | some v => fun c => if c = AssetClass.CASH then some v else p c
    | none => p
  else p

/-- `sum(percentages.values())`: absent classes contribute nothing.  Rational
addition is commutative, so the dict iteration order is immaterial. -/
def percSum (p : AssetClass → Option ℚ) : ℚ :=
  (allClasses.map (fun c => (p c).getD 0)).sum

/-- Python `abs` on rationals (an executable spelling of `|q|`). -/
def ratAbs (q : ℚ) : ℚ := if q < 0 then -q else q

/-- The percentage-total validation predicate of `parse_pdf`: warn exactly
when the sum deviates from 100 by more than the tolerance. -/
def percentWarnB (p : AssetClass → Option ℚ) : Bool :=
  decide (ratAbs (percSum p - 100) > PERCENTAGE_TOLERANCE)

/-- Tags for the advisory warnings logged by `parse_pdf` (the log messages
also interpolate the offending values; only the occurrence matters here). -/
inductive PWarning where
  | totalAssetsMissing
  | percentTotalDeviation
  | missingRequiredAssets
deriving DecidableEq

/-- The record built by `parse_pdf`. -/
structure ExtractionResult where
  year : String
  total_assets : Option ℚ
  percentages : AssetClass → Option ℚ

/-- `parse_pdf`, with the year-identification result (filename / first-pages
I/O in Python) supplied as an input, and with the per-document page texts as
the document.  Returns the result record together with the advisory warnings
logged on the way, in program order; warnings never affect the record. -/
def parse_pdf (year? : Option String) (pages : List String) :
    Option (ExtractionResult × List PWarning) :=
  match year? with
  | none => none
  | some year =>
    match find_composition_section pages with
    | none => none
    | some (_, pageText) =>
      let ps0 := extract_percentages_from_text pageText
      if allClasses.all (fun c => (ps0 c).isNone) then none
      else
        let ps := deriveCash ps0
        let ta := extract_total_assets_from_table pages
        let w1 := if ta.isNone then [PWarning.totalAssetsMissing] else []
        let w2 :=
          if VALIDATE_PERCENTAGE_TOTAL && percentWarnB ps then
            [PWarning.percentTotalDeviation]
          else []
        let w3 :=
          if REQUIRE_ALL_ASSETS && requiredAssets.any (fun c => (ps c).isNone) then
            [PWarning.missingRequiredAssets]
          else []
        some ({ year := year, total_assets := ta, percentages := ps }, w1 ++ w2 ++ w3)

/-! ### Spec-side definition for the fallback tier ordering -/

/-- Modelled from the spec's words for one fallback candidate: "the first
concatenation that parses as a number in [10000, 50000]". -/
def specQualify (s : List Char) : Option ℚ :=
  match cleanNumber s with
  | some v => if 10000 ≤ v ∧ v ≤ 50000 then some v else none
  | none => none

/-- Modelled from the spec's description of the fallback ("try pairwise
concatenation of adjacent runs, accepting the first concatenation that parses
as a number in [10000, 50000]; if none qualifies, apply a last-resort regex"):
the adjacent pairs as an explicit list, scanned for the first qualifying
concatenation, with the last-resort tier only on its failure.  Stated
separately so that the code's loop can be proved equal to it. -/
def fallbackSpec (line : List Char) : Option ℚ :=
  let runs := digitRuns line
  match (List.zipWith (fun a b => a ++ b) runs runs.tail).findSome? specQualify with
  | some v => some v
  | none => lastResortValue? line

/-- A concrete allocation map exercising the cash derivation (the five known
classes present, summing to 95). -/
def cashWitnessMap : AssetClass → Option ℚ
  | AssetClass.INFRASTRUCTURE => some 10
  | AssetClass.BONDS => some 20
  | AssetClass.EQUITIES => some 30
  | AssetClass.REALESTATE => some 15
  | AssetClass.HEDGEFUNDS_PRIVATEEQUITY => some 20
  | _ => none

/-- An allocation map whose present values sum to 97.5. -/
def warnMapHigh : AssetClass → Option ℚ := fun c =>
  if c = AssetClass.BONDS then some (mkRat 975 10) else none

/-- An allocation map whose present values sum to 98.5. -/
def warnMapLow : AssetClass → Option ℚ := fun c =>
  if c = AssetClass.BONDS then some (mkRat 985 10) else none

/-! ## Lemmas -/

theorem ratAbs_eq_abs (q : ℚ) : ratAbs q = |q| := by
  unfold ratAbs
  split
  · exact (abs_of_neg (by assumption)).symm
  · exact (abs_of_nonneg (le_of_not_lt (by assumption))).symm

theorem isPyDigit_toNat {c : Char} (h : isPyDigit c = true) : 48 ≤ c.toNat ∧ c.toNat ≤ 57 := by
  simpa [isPyDigit, Bool.and_eq_true, decide_eq_true_iff] using h

theorem digitVal_le_nine {c : Char} (h : isPyDigit c = true) : digitVal c ≤ 9 := by
  have h2 := isPyDigit_toNat h
  unfold digitVal
  omega

theorem isPySpace_of_digit {c : Char} (h : isPyDigit c = true) : isPySpace c = false := by
  have h2 := isPyDigit_toNat h
  simp only [isPySpace, Bool.or_eq_false_iff, decide_eq_false_iff_not]
  omega

theorem digit_ne {c d : Char} (h : isPyDigit c = true) (hd : isPyDigit d = false) : c ≠ d := by
  intro he
  rw [he, hd] at h
  cases h

theorem takeWhile_all {p : Char → Bool} :
    ∀ {l : List Char}, (∀ c ∈ l, p c = true) → l.takeWhile p = l := by
  intro l
  induction l with
  | nil => intro _; rfl
  | cons c t ih =>
    intro h
    have hc : p c = true := h c (by simp)
    simp [List.takeWhile, hc, ih (fun d hd => h d (by simp [hd]))]

theorem dropWhile_all {p : Char → Bool} :
    ∀ {l : List Char}, (∀ c ∈ l, p c = true) → l.dropWhile p = [] := by
  intro l
  induction l with
  | nil => intro _; rfl
  | cons c t ih =>
    intro h
    have hc : p c = true := h c (by simp)
    simp [List.dropWhile, hc, ih (fun d hd => h d (by simp [hd]))]

theorem dropWhile_all_false {p : Char → Bool} :
    ∀ {l : List Char}, (∀ c ∈ l, p c = false) → l.dropWhile p = l := by
  intro l
  induction l with
  | nil => intro _; rfl
  | cons c t ih =>
    intro h
    simp [List.dropWhile, h c (by simp)]

theorem stripEnds_of_no_space {l : List Char} (h : ∀ c ∈ l, isPySpace c = false) :
    stripEnds l = l := by
  unfold stripEnds
  rw [dropWhile_all_false h, dropWhile_all_false (fun c hc => h c (List.mem_reverse.mp hc)),
    List.reverse_reverse]

theorem cleanFilter_digits {l : List Char} (h : ∀ c ∈ l, isPyDigit c = true) :
    l.filter (fun c => !(c == ' ' || c == ',' || c == Char.ofNat 160)) = l := by
  apply List.filter_eq_self.mpr
  intro a ha
  have hd := h a ha
  simp only [Bool.not_eq_true', Bool.or_eq_false_iff, beq_eq_false_iff_ne, ne_eq]
  refine ⟨⟨?_, ?_⟩, ?_⟩ <;> intro he <;> rw [he] at hd <;> exact absurd hd (by decide)

theorem digits_ne_nan {l : List Char} (h : ∀ c ∈ l, isPyDigit c = true) : l ≠ ("nan".data) := by
  intro he
  have hn : 'n' ∈ l := by rw [he]; simp [String.data]
  exact absurd (h _ hn) (by decide)

theorem parseUnsigned_digits {l : List Char} (hne : l ≠ [])
    (h : ∀ c ∈ l, isPyDigit c = true) : parseUnsigned? l = some ((natOfDigits l : ℚ)) := by
  unfold parseUnsigned?
  rw [takeWhile_all h, dropWhile_all h]
  simp [hne]

theorem parseDecimal_digits {l : List Char} (hne : l ≠ [])
    (h : ∀ c ∈ l, isPyDigit c = true) : parseDecimal? l = some ((natOfDigits l : ℚ)) := by
  cases l with
  | nil => exact absurd rfl hne
  | cons c t =>
    have hc : isPyDigit c = true := h c (by simp)
    unfold parseDecimal?
    split
    · rename_i heq
      exact absurd (List.head_eq_of_cons_eq heq) (digit_ne hc (by decide))
    · rename_i heq
      exact absurd (List.head_eq_of_cons_eq heq) (digit_ne hc (by decide))
    · exact parseUnsigned_digits hne h

theorem cleanNumber_digits {l : List Char} (hne : l ≠ [])
    (h : ∀ c ∈ l, isPyDigit c = true) : cleanNumber l = some ((natOfDigits l : ℚ)) := by
  unfold cleanNumber
  rw [if_neg (by push_neg; exact ⟨hne, digits_ne_nan h⟩)]
  rw [cleanFilter_digits h, stripEnds_of_no_space (fun c hc => isPySpace_of_digit (h c hc))]
  exact parseDecimal_digits hne h

theorem dropExact_append (al rest : List Char) : dropExact al (al ++ rest) = some rest := by
  induction al with
  | nil => rfl
  | cons c t ih => simp [dropExact, ih]

theorem takeWhile_append_front {p : Char → Bool} {l1 l2 : List Char}
    (h1 : ∀ c ∈ l1, p c = true) (h2 : ∀ c, l2.head? = some c → p c = false) :
    (l1 ++ l2).takeWhile p = l1 := by
  induction l1 with
  | nil =>
    cases l2 with
    | nil => rfl
    | cons c t => simp [List.takeWhile, h2 c rfl]
  | cons c t ih =>
    simp [List.takeWhile, h1 c (by simp), ih (fun d hd => h1 d (by simp [hd]))]

theorem dropWhile_append_front {p : Char → Bool} {l1 l2 : List Char}
    (h1 : ∀ c ∈ l1, p c = true) (h2 : ∀ c, l2.head? = some c → p c = false) :
    (l1 ++ l2).dropWhile p = l2 := by
  induction l1 with
  | nil =>
    cases l2 with
    | nil => rfl
    | cons c t => simp [List.dropWhile, h2 c rfl]
  | cons c t ih =>
    simp [List.dropWhile, h1 c (by simp), ih (fun d hd => h1 d (by simp [hd]))]

theorem matchPctHere_complete (al ws ds suf : List Char)
    (hws : ws ≠ []) (hwsp : ∀ c ∈ ws, isPySpace c = true)
    (hds : ds ≠ []) (hdsd : ∀ c ∈ ds, isPyDigit c = true) :
    matchPctHere al (al ++ (ws ++ (ds ++ '%' :: suf))) = some (natOfDigits ds) := by
  unfold matchPctHere
  rw [dropExact_append]
  have hwt : (ws ++ (ds ++ '%' :: suf)).takeWhile isPySpace = ws := by
    apply takeWhile_append_front hwsp
    intro c hc
    cases ds with
    | nil => exact absurd rfl hds
    | cons d t =>
      simp at hc
      subst hc
      exact isPySpace_of_digit (hdsd d (by simp))
  have hwd : (ws ++ (ds ++ '%' :: suf)).dropWhile isPySpace = ds ++ '%' :: suf := by
    apply dropWhile_append_front hwsp
    intro c hc
    cases ds with
    | nil => exact absurd rfl hds
    | cons d t =>
      simp at hc
      subst hc
      exact isPySpace_of_digit (hdsd d (by simp))
  have hdt : (ds ++ '%' :: suf).takeWhile isPyDigit = ds := by
    apply takeWhile_append_front hdsd
    intro c hc
    simp at hc
    subst hc
    decide
  have hdd : (ds ++ '%' :: suf).dropWhile isPyDigit = '%' :: suf := by
    apply dropWhile_append_front hdsd
    intro c hc
    simp at hc
    subst hc
    decide
  simp only [hwt, hwd, hdt, hdd]
  rw [if_neg (by simpa using hws), if_neg (by simpa using hds)]

theorem matchPctHere_nil (al : List Char) : matchPctHere al [] = none := by
  cases al <;> rfl

theorem aliasSearch_isSome_append (al pre rest : List Char)
    (h : (matchPctHere al rest).isSome = true) :
    (aliasSearch al (pre ++ rest)).isSome = true := by
  induction pre with
  | nil =>
    cases rest with
    | nil => rw [matchPctHere_nil] at h; cases h
    | cons c t =>
      obtain ⟨n, hn⟩ := Option.isSome_iff_exists.mp h
      simp [aliasSearch, hn]
  | cons c t ih =>
    rw [List.cons_append, aliasSearch]
    cases hm : matchPctHere al (c :: (t ++ rest)) with
    | none => simpa using ih
    | some n => simp

theorem findSome?_isSome_of_mem {α β : Type} {f : α → Option β} {l : List α} {a : α}
    (ha : a ∈ l) (h : (f a).isSome = true) : (l.findSome? f).isSome = true := by
  induction l with
  | nil => cases ha
  | cons b t ih =>
    rw [List.findSome?_cons]
    cases hb : f b with
    | some v => simp
    | none =>
      rcases List.mem_cons.mp ha with he | ht
      · rw [he, hb] at h; cases h
      · exact ih ht

theorem findSome?_eq_some_imp {α β : Type} {f : α → Option β} {l : List α} {v : β}
    (h : l.findSome? f = some v) : ∃ a ∈ l, f a = some v := by
  induction l with
  | nil => cases h
  | cons b t ih =>
    rw [List.findSome?_cons] at h
    cases hb : f b with
    | some w =>
      rw [hb] at h
      simp at h
      exact ⟨b, by simp, by rw [hb, h]⟩
    | none =>
      rw [hb] at h
      simp at h
      obtain ⟨a, ha, hfa⟩ := ih h
      exact ⟨a, by simp [ha], hfa⟩

theorem locateSection_none_iff (kws : List String) (pages : List String) :
    locateSection kws pages = none ↔ ∀ t ∈ pages, pageMatches kws t = false := by
  induction pages with
  | nil => simp [locateSection]
  | cons hd tl ih =>
    by_cases hm : pageMatches kws hd = true
    · simp [locateSection, hm]
    · rw [Bool.not_eq_true] at hm
      simp [locateSection, hm, ih]

theorem locateSection_some_iff (kws : List String) (pages : List String) (i : Nat) (t : String) :
    locateSection kws pages = some (i, t) ↔
      pages[i]? = some t ∧ pageMatches kws t = true ∧
        ∀ j, j < i → ∀ u, pages[j]? = some u → pageMatches kws u = false := by
  induction pages generalizing i with
  | nil => simp [locateSection]
  | cons hd tl ih =>
    rw [locateSection]
    by_cases hm : pageMatches kws hd = true
    · rw [if_pos hm]
      cases i with
      | zero =>
        constructor
        · intro h
          injection h with h'
          obtain ⟨_, h2⟩ := Prod.mk.inj h'
          subst h2
          exact ⟨by simp, hm, fun j hj => absurd hj (by omega)⟩
        · rintro ⟨hg, _, _⟩
          simp at hg
          rw [hg]
      | succ k =>
        constructor
        · intro h
          injection h with h'
          obtain ⟨h1, _⟩ := Prod.mk.inj h'
          exact absurd h1 (by omega)
        · rintro ⟨hg, hmt, hlt⟩
          have h0 := hlt 0 (by omega) hd (by simp)
          rw [hm] at h0
          cases h0
    · rw [Bool.not_eq_true] at hm
      rw [if_neg (by simp [hm])]
      constructor
      · intro h
        obtain ⟨⟨k, u⟩, hrec, hpair⟩ := Option.map_eq_some'.mp h
        obtain ⟨hi, hu⟩ := Prod.mk.inj hpair
        simp only at hi hu
        subst hu
        subst hi
        obtain ⟨hg, hmt, hlt⟩ := (ih k).mp hrec
        refine ⟨by simpa using hg, hmt, ?_⟩
        intro j hj u hu
        cases j with
        | zero =>
          simp at hu
          rw [← hu]
          exact hm
        | succ j' =>
          simp only [List.getElem?_cons_succ] at hu
          exact hlt j' (by omega) u hu
      · rintro ⟨hg, hmt, hlt⟩
        cases i with
        | zero =>
          simp at hg
          rw [hg] at hm
          rw [hmt] at hm
          cases hm
        | succ k =>
          have hrec : locateSection kws tl = some (k, t) := by
            refine (ih k).mpr ⟨by simpa using hg, hmt, ?_⟩
            intro j hj u hu
            exact hlt (j + 1) (by omega) u (by simpa using hu)
          rw [hrec]
          rfl

theorem totalAssetsLine_empty_text : totalAssetsLine? (splitLines []) = none := by decide

theorem extract_table_line (pages : List String) (pg : Nat) (line : List Char)
    (h1 : find_balance_sheet_page pages = some pg)
    (h2 : totalAssetsLine? (splitLines ((pages.getD pg "").data)) = some line) :
    extract_total_assets_from_table pages = extract_total_assets_from_line line := by
  have htext : (pages.getD pg "").data ≠ [] := by
    intro h0
    rw [h0, totalAssetsLine_empty_text] at h2
    cases h2
  unfold extract_total_assets_from_table
  rw [h1]
  simp only [if_neg htext, h2]

theorem qualifyPair_bounds {s : List Char} {v : ℚ} (h : qualifyPair s = some v) :
    10000 ≤ v ∧ v ≤ 50000 := by
  unfold qualifyPair at h
  split at h
  · split at h
    · rename_i w hw hcond
      injection h with h'
      rw [← h']
      exact hcond.2
    · cases h
  · cases h

theorem adjacentPairValue_bounds :
    ∀ {rs : List (List Char)} {v : ℚ}, adjacentPairValue? rs = some v →
      10000 ≤ v ∧ v ≤ 50000 := by
  intro rs
  induction rs with
  | nil => intro v h; cases h
  | cons a tail ih =>
    intro v h
    cases tail with
    | nil => cases h
    | cons b rest =>
      rw [adjacentPairValue?] at h
      cases hq : qualifyPair (a ++ b) with
      | some w =>
        rw [hq] at h
        injection h with h'
        rw [← h']
        exact qualifyPair_bounds hq
      | none =>
        rw [hq] at h
        exact ih h

theorem lastResortHere_shape {prev : Option Char} {s : List Char} {m : List Char}
    (h : lastResortHere prev s = some m) :
    ∃ c2 c3 c4 c5, m = ['1', c2, c3, c4, c5] ∧ (c2 = '3' ∨ c2 = '4') ∧
      isPyDigit c3 = true ∧ isPyDigit c4 = true ∧ isPyDigit c5 = true := by
  unfold lastResortHere at h
  split at h
  · rename_i c1 c2 c3 c4 c5 rest
    split at h
    · rename_i hcond
      simp only [Bool.and_eq_true, Bool.or_eq_true, beq_iff_eq] at hcond
      obtain ⟨⟨⟨⟨⟨⟨hA, hB⟩, hC⟩, hD⟩, hE⟩, _⟩, _⟩ := hcond
      injection h with h'
      refine ⟨c2, c3, c4, c5, ?_, hB, hC, hD, hE⟩
      rw [← h', hA]
    · cases h
  · cases h

theorem lastResortSearch_shape :
    ∀ {s : List Char} {prev : Option Char} {m : List Char},
      lastResortSearch prev s = some m →
      ∃ c2 c3 c4 c5, m = ['1', c2, c3, c4, c5] ∧ (c2 = '3' ∨ c2 = '4') ∧
        isPyDigit c3 = true ∧ isPyDigit c4 = true ∧ isPyDigit c5 = true := by
  intro s
  induction s with
  | nil => intro prev m h; cases h
  | cons c t ih =>
    intro prev m h
    rw [lastResortSearch] at h
    cases hh : lastResortHere prev (c :: t) with
    | some m0 =>
      rw [hh] at h
      injection h with h'
      rw [← h']
      exact lastResortHere_shape hh
    | none =>
      rw [hh] at h
      exact ih h

theorem natOfDigits_five (c2 c3 c4 c5 : Char) :
    natOfDigits ['1', c2, c3, c4, c5] =
      10000 + 1000 * digitVal c2 + 100 * digitVal c3 + 10 * digitVal c4 + digitVal c5 := by
  have h1 : digitVal '1' = 1 := rfl
  simp only [natOfDigits, List.foldl, h1]
  omega

theorem lastResortValue_bounds {line : List Char} {v : ℚ}
    (h : lastResortValue? line = some v) : 13000 ≤ v ∧ v ≤ 14999 := by
  unfold lastResortValue? at h
  split at h
  case h_2 => cases h
  case h_1 m hs =>
    obtain ⟨c2, c3, c4, c5, hm, hc2, hd3, hd4, hd5⟩ := lastResortSearch_shape hs
    have hall : ∀ c ∈ m, isPyDigit c = true := by
      intro c hc
      rw [hm] at hc
      simp at hc
      rcases hc with h | h | h | h | h
      · rw [h]; decide
      · rcases hc2 with h2 | h2 <;> rw [h, h2] <;> decide
      · rw [h]; exact hd3
      · rw [h]; exact hd4
      · rw [h]; exact hd5
    have hne : m ≠ [] := by rw [hm]; simp
    rw [cleanNumber_digits hne hall] at h
    have hval : natOfDigits m =
        10000 + 1000 * digitVal c2 + 100 * digitVal c3 + 10 * digitVal c4 + digitVal c5 := by
      rw [hm]; exact natOfDigits_five c2 c3 c4 c5
    have hb2 : digitVal c2 = 3 ∨ digitVal c2 = 4 := by
      rcases hc2 with h2 | h2 <;> rw [h2] <;> [left; right] <;> rfl
    have hb3 := digitVal_le_nine hd3
    have hb4 := digitVal_le_nine hd4
    have hb5 := digitVal_le_nine hd5
    have hlow : 13000 ≤ natOfDigits m := by omega
    have hhigh : natOfDigits m ≤ 14999 := by omega
    split at h
    case h_2 heq => cases heq
    case h_1 w hw =>
      injection hw with hw'
      split at h
      · cases h
      · injection h with h'
        rw [← h', ← hw']
        constructor
        · exact_mod_cast hlow
        · exact_mod_cast hhigh

theorem qualifyPair_eq_spec (s : List Char) : qualifyPair s = specQualify s := by
  unfold qualifyPair specQualify
  split
  · rename_i v hv0
    by_cases hv : 10000 ≤ v ∧ v ≤ 50000
    · have ne0 : v ≠ 0 := by
        intro h0
        rw [h0] at hv
        exact absurd hv.1 (by norm_num)
      rw [if_pos ⟨ne0, hv⟩, if_pos hv]
    · rw [if_neg (fun hc => hv hc.2), if_neg hv]
  · rfl

theorem adjacentPairValue_eq_spec :
    ∀ rs : List (List Char),
      adjacentPairValue? rs =
        (List.zipWith (fun a b => a ++ b) rs rs.tail).findSome? specQualify
  | [] => rfl
  | [a] => rfl
  | a :: b :: rest => by
    rw [adjacentPairValue?]
    have hz : List.zipWith (fun a b => a ++ b) (a :: b :: rest) (a :: b :: rest).tail =
        (a ++ b) :: List.zipWith (fun a b => a ++ b) (b :: rest) (b :: rest).tail := rfl
    rw [hz, List.findSome?_cons, ← adjacentPairValue_eq_spec (b :: rest),
      ← qualifyPair_eq_spec]
    cases hq : qualifyPair (a ++ b) <;> simp [hq]

theorem fallback_eq_spec (line : List Char) :
    extract_total_assets_fallback line = fallbackSpec line := by
  simp only [extract_total_assets_fallback, fallbackSpec]
  rw [← adjacentPairValue_eq_spec]

theorem deriveCash_preserves_isSome (p : AssetClass → Option ℚ) (c : AssetClass)
    (h : (p c).isSome = true) : (deriveCash p c).isSome = true := by
  unfold deriveCash
  split
  · cases hcp : calculate_cash_percentage p with
    | some v =>
      simp only [hcp]
      by_cases hc : c = AssetClass.CASH
      · simp [hc]
      · simp [hc, h]
    | none => simp only [hcp]; exact h
  · exact h

/-! ## Claim theorems -/

/-- C1: for every balance-sheet page, when the first line containing
`'total assets'` (and not `'total liabilities'`) splits on whitespace into
exactly six tokens whose first two are `Total` / `assets`, the extraction
returns exactly `clean_number` of the concatenation of tokens 3 and 4 —
the primary reconstruction, with no fallback involved. -/
theorem spec_total_assets_canonical (pages : List String) (pg : Nat)
    (line : List Char) (parts : List (List Char))
    (h1 : find_balance_sheet_page pages = some pg)
    (h2 : totalAssetsLine? (splitLines ((pages.getD pg "").data)) = some line)
    (h3 : pySplit line = parts) (h4 : parts.length = 6)
    (h5 : parts.getD 0 [] = ("Total".data)) (h6 : parts.getD 1 [] = ("assets".data)) :
    extract_total_assets_from_table pages = cleanNumber (parts.getD 2 [] ++ parts.getD 3 []) := by
  rw [extract_table_line pages pg line h1 h2]
  simp only [extract_total_assets_from_line]
  rw [h3, if_pos h4, if_pos ⟨by rw [h5]; rfl, by rw [h6]; rfl⟩]

/-- C1 witness: the line `"Total assets 13 432 13 083"` yields `13432.0`. -/
theorem spec_total_assets_canonical_witness :
    extract_total_assets_from_table [("Balance sheet\nTotal assets 13 432 13 083")] =
      some ((13432 : ℚ)) := by
  have h := spec_total_assets_canonical
    [("Balance sheet\nTotal assets 13 432 13 083")] 0
    (("Total assets 13 432 13 083").data)
    [("Total".data), ("assets".data), ("13".data), ("432".data), ("13".data), ("083".data)]
    (by decide) (by decide) (by decide) (by decide) (by decide) (by decide)
  rw [h]
  decide

/-- C2 counterexample: a six-token `'total assets'` line whose first two
tokens are not the literal labels is answered with `None` directly; the
fallback, had it been consulted, would have produced `13432`. -/
theorem spec_label_mismatch_counterexample :
    extract_total_assets_from_table [("balance sheet\nA B Total assets 13 432")] = none ∧
    extract_total_assets_fallback (("A B Total assets 13 432").data) = some ((13432 : ℚ)) := by
  exact ⟨by decide, by decide⟩

/-- C2 (amended): a token count different from six routes extraction to the
fallback, but a six-token line whose first two tokens mismatch the literal
labels `Total` / `assets` returns `NOT_FOUND` directly without trying the
fallback. -/
theorem spec_total_assets_routing_amended (pages : List String) (pg : Nat)
    (line : List Char) (parts : List (List Char))
    (h1 : find_balance_sheet_page pages = some pg)
    (h2 : totalAssetsLine? (splitLines ((pages.getD pg "").data)) = some line)
    (h3 : pySplit line = parts) :
    (parts.length ≠ 6 →
      extract_total_assets_from_table pages = extract_total_assets_fallback line) ∧
    (parts.length = 6 →
      ¬(lowerL (parts.getD 0 []) = ("total".data) ∧ lowerL (parts.getD 1 []) = ("assets".data)) →
      extract_total_assets_from_table pages = none) := by
  rw [extract_table_line pages pg line h1 h2]
  constructor
  · intro hne
    simp only [extract_total_assets_from_line]
    rw [h3, if_neg hne]
  · intro h6 hlab
    simp only [extract_total_assets_from_line]
    rw [h3, if_pos h6, if_neg hlab]

/-- C2 witness: a six-token line with mismatching labels returns `None`. -/
theorem spec_total_assets_routing_amended_witness :
    extract_total_assets_from_table [("balance sheet\nC D Total assets 99 111")] = none := by
  have h := spec_total_assets_routing_amended
    [("balance sheet\nC D Total assets 99 111")] 0 (("C D Total assets 99 111").data)
    [("C".data), ("D".data), ("Total".data), ("assets".data), ("99".data), ("111".data)]
    (by decide) (by decide) (by decide)
  exact h.2 (by decide) (by decide)

/-- C3: a `'total assets'` line that does not split into exactly six tokens is
handled entirely by the fallback, and the fallback equals the tiered
specification: the first adjacent-pair concatenation of the line's maximal
digit runs whose value parses into `[10000, 50000]`, and only when no pair
qualifies, the last-resort `1[34]ddd` regex. -/
theorem spec_fallback_tier_order (pages : List String) (pg : Nat)
    (line : List Char) (parts : List (List Char))
    (h1 : find_balance_sheet_page pages = some pg)
    (h2 : totalAssetsLine? (splitLines ((pages.getD pg "").data)) = some line)
    (h3 : pySplit line = parts) (h4 : parts.length ≠ 6) :
    extract_total_assets_from_table pages = extract_total_assets_fallback line ∧
    extract_total_assets_fallback line = fallbackSpec line := by
  constructor
  · rw [extract_table_line pages pg line h1 h2]
    simp only [extract_total_assets_from_line]
    rw [h3, if_neg h4]
  · exact fallback_eq_spec line

/-- C3 witness: a seven-token line routes through the fallback tiers. -/
theorem spec_fallback_tier_order_witness :
    extract_total_assets_from_table [("Balance sheet\nTotal assets x 13 432 13 083")] =
      extract_total_assets_fallback (("Total assets x 13 432 13 083").data) ∧
    extract_total_assets_fallback (("Total assets x 13 432 13 083").data) =
      fallbackSpec (("Total assets x 13 432 13 083").data) :=
  spec_fallback_tier_order [("Balance sheet\nTotal assets x 13 432 13 083")] 0
    (("Total assets x 13 432 13 083").data)
    [("Total".data), ("assets".data), ("x".data), ("13".data), ("432".data),
     ("13".data), ("083".data)]
    (by decide) (by decide) (by decide) (by decide)

/-- C10: whenever the total-assets fallback returns a number, that number lies
in `[10000, 50000]`: the adjacent-pair tier checks the range explicitly, and
the last-resort regex can only produce values in `[13000, 14999]`. -/
theorem spec_fallback_range (line : List Char) (v : ℚ)
    (h : extract_total_assets_fallback line = some v) :
    10000 ≤ v ∧ v ≤ 50000 := by
  unfold extract_total_assets_fallback at h
  split at h
  case h_1 w hw =>
    injection h with h'
    rw [← h']
    exact adjacentPairValue_bounds hw
  case h_2 =>
    have hb := lastResortValue_bounds h
    constructor
    · linarith [hb.1]
    · linarith [hb.2]

/-- C10 witness: a concrete fallback result lies in the range. -/
theorem spec_fallback_range_witness : 10000 ≤ ((13432 : ℚ)) ∧ ((13432 : ℚ)) ≤ 50000 :=
  spec_fallback_range (("x 13 432 y").data) 13432 (by decide)

/-- C4 counterexample: the alias pattern has no word boundary, so
`"Eurobonds 27%"` does count as a match for the alias `Bonds` (the claim
asserts it must not). -/
theorem spec_alias_substring_counterexample :
    extract_percentages_from_text ("Eurobonds 27%") AssetClass.BONDS = some ((27 : ℚ)) := by
  decide

/-- C4 (amended): the percentage extractor matches the alias literally but as
an unanchored substring — any occurrence of the alias followed by whitespace
and an integer percentage, case-insensitively, produces a match for that
class, including an occurrence inside a longer word such as
`"Eurobonds 27%"` for the alias `Bonds`. -/
theorem spec_alias_substring_amended (c : AssetClass) (al : String) (text : String)
    (pre ws ds suf : List Char)
    (hal : al ∈ PDF_ASSET_NAMES c)
    (hdecomp : lowerL (text.data) = pre ++ (lowerL (al.data) ++ (ws ++ (ds ++ '%' :: suf))))
    (hws : ws ≠ []) (hwsp : ∀ ch ∈ ws, isPySpace ch = true)
    (hds : ds ≠ []) (hdsd : ∀ ch ∈ ds, isPyDigit ch = true) :
    (extract_percentages_from_text text c).isSome = true := by
  unfold extract_percentages_from_text
  apply findSome?_isSome_of_mem hal
  have hcomplete := matchPctHere_complete (lowerL (al.data)) ws ds suf hws hwsp hds hdsd
  have hsome : (aliasSearch (lowerL (al.data)) (lowerL (text.data))).isSome = true := by
    rw [hdecomp]
    exact aliasSearch_isSome_append _ pre _ (by rw [hcomplete]; rfl)
  obtain ⟨n, hn⟩ := Option.isSome_iff_exists.mp hsome
  rw [hn]
  rfl

/-- C4 witness: an alias occurrence embedded in a longer word is matched. -/
theorem spec_alias_substring_amended_witness :
    (extract_percentages_from_text ("XBonds  42%Y") AssetClass.BONDS).isSome = true :=
  spec_alias_substring_amended AssetClass.BONDS ("Bonds") ("XBonds  42%Y")
    (("x").data) (("  ").data) (("42").data) (("y").data)
    (by decide) (by decide) (by decide) (by decide) (by decide) (by decide)

/-- C5 counterexample: the captured integer is not clamped, so a section text
`"Bonds 250%"` produces a percentage of 250, outside `[0, 100]`. -/
theorem spec_percentage_range_counterexample :
    extract_percentages_from_text ("Bonds 250%") AssetClass.BONDS = some ((250 : ℚ)) ∧
    ¬((250 : ℚ) ≤ 100) := by
  exact ⟨by decide, by norm_num⟩

/-- C5 (amended): every value in the extractor's mapping is a nonnegative
integer captured by an actual alias match (so a key is present only for a
class whose alias matched, and a class with no match is absent rather than
zero); no upper bound of 100 is enforced. -/
theorem spec_percentage_values_amended (text : String) (c : AssetClass) (v : ℚ)
    (h : extract_percentages_from_text text c = some v) :
    0 ≤ v ∧ ∃ al ∈ PDF_ASSET_NAMES c, ∃ n : Nat,
      aliasSearch (lowerL (al.data)) (lowerL (text.data)) = some n ∧ v = (n : ℚ) := by
  unfold extract_percentages_from_text at h
  obtain ⟨al, hmem, hal⟩ := findSome?_eq_some_imp h
  cases ho : aliasSearch (lowerL (al.data)) (lowerL (text.data)) with
  | none => rw [ho] at hal; cases hal
  | some n =>
    rw [ho] at hal
    simp only [Option.some.injEq] at hal
    refine ⟨?_, al, hmem, n, ho, hal.symm⟩
    rw [← hal]
    exact Nat.cast_nonneg n

/-- C5 witness: the value 27 extracted for `Bonds` is nonnegative and stems
from an alias match. -/
theorem spec_percentage_values_amended_witness :
    0 ≤ ((27 : ℚ)) ∧ ∃ al ∈ PDF_ASSET_NAMES AssetClass.BONDS, ∃ n : Nat,
      aliasSearch (lowerL (al.data)) (lowerL (("Bonds 27%").data)) = some n ∧
        ((27 : ℚ)) = (n : ℚ) :=
  spec_percentage_values_amended ("Bonds 27%") AssetClass.BONDS 27 (by decide)

/-- C6: when CASH is absent and the five known classes are present, the
derivation step sets CASH to `100 − sum` exactly when that difference lies in
`[0, 100]`; when the sum exceeds 100 the CASH key stays absent; and no class
other than CASH is ever touched by the derivation. -/
theorem spec_cash_derivation (p : AssetClass → Option ℚ) (v1 v2 v3 v4 v5 : ℚ)
    (hc : p AssetClass.CASH = none)
    (h1 : p AssetClass.INFRASTRUCTURE = some v1) (h2 : p AssetClass.BONDS = some v2)
    (h3 : p AssetClass.EQUITIES = some v3) (h4 : p AssetClass.REALESTATE = some v4)
    (h5 : p AssetClass.HEDGEFUNDS_PRIVATEEQUITY = some v5) :
    ((0 ≤ 100 - (v1 + v2 + v3 + v4 + v5) ∧ 100 - (v1 + v2 + v3 + v4 + v5) ≤ 100) →
      deriveCash p AssetClass.CASH = some (100 - (v1 + v2 + v3 + v4 + v5))) ∧
    (100 < v1 + v2 + v3 + v4 + v5 → deriveCash p AssetClass.CASH = none) ∧
    (∀ c, c ≠ AssetClass.CASH → deriveCash p c = p c) := by
  have hall : knownAssets.all (fun c => (p c).isSome) = true := by
    simp [knownAssets, h1, h2, h3, h4, h5]
  have hcalc : calculate_cash_percentage p =
      (if 0 ≤ 100 - (v1 + v2 + v3 + v4 + v5) ∧ 100 - (v1 + v2 + v3 + v4 + v5) ≤ 100
       then some (100 - (v1 + v2 + v3 + v4 + v5)) else none) := by
    have hsum : (knownAssets.map (fun c => (p c).getD 0)).sum = v1 + v2 + v3 + v4 + v5 := by
      simp [knownAssets, h1, h2, h3, h4, h5]
      ring
    simp only [calculate_cash_percentage, hall, if_true, hsum]
  refine ⟨?_, ?_, ?_⟩
  · intro hin
    simp only [deriveCash, hc, Option.isNone_none, if_true]
    rw [hcalc, if_pos hin]
    simp
  · intro hgt
    have hnot : ¬(0 ≤ 100 - (v1 + v2 + v3 + v4 + v5) ∧
        100 - (v1 + v2 + v3 + v4 + v5) ≤ 100) := by
      intro hcon
      linarith [hcon.1]
    simp only [deriveCash, hc, Option.isNone_none, if_true]
    rw [hcalc, if_neg hnot]
    exact hc
  · intro c hcne
    simp only [deriveCash, hc, Option.isNone_none, if_true]
    rw [hcalc]
    by_cases hin : 0 ≤ 100 - (v1 + v2 + v3 + v4 + v5) ∧
        100 - (v1 + v2 + v3 + v4 + v5) ≤ 100
    · rw [if_pos hin]
      simp [hcne]
    · rw [if_neg hin]

/-- C6 witness: with the five known classes summing to 95, CASH is derived
as 5. -/
theorem spec_cash_derivation_witness :
    deriveCash cashWitnessMap AssetClass.CASH = some ((5 : ℚ)) := by
  have h := (spec_cash_derivation cashWitnessMap 10 20 30 15 20
    rfl rfl rfl rfl rfl rfl).1 (by norm_num)
  have he : (100 : ℚ) - (10 + 20 + 30 + 15 + 20) = 5 := by norm_num
  rw [he] at h
  exact h

/-- C7: the orchestrator returns nothing when year identification, section
location, or percentage extraction yields nothing; when those succeed it
always returns a record whose `total_assets` is whatever the (possibly
failing) total-assets extraction produced and whose percentages are the
extracted map after cash derivation; and cash derivation never removes a
present class. -/
theorem spec_orchestrator_fatality :
    (∀ pages, parse_pdf none pages = none) ∧
    (∀ y pages, find_composition_section pages = none → parse_pdf (some y) pages = none) ∧
    (∀ y pages i t, find_composition_section pages = some (i, t) →
      allClasses.all (fun c => ((extract_percentages_from_text t) c).isNone) = true →
      parse_pdf (some y) pages = none) ∧
    (∀ y pages i t, find_composition_section pages = some (i, t) →
      allClasses.all (fun c => ((extract_percentages_from_text t) c).isNone) = false →
      ∃ w, parse_pdf (some y) pages =
        some ({ year := y, total_assets := extract_total_assets_from_table pages,
                percentages := deriveCash (extract_percentages_from_text t) }, w)) ∧
    (∀ p : AssetClass → Option ℚ, ∀ c, (p c).isSome = true → (deriveCash p c).isSome = true) := by
  refine ⟨fun pages => rfl, ?_, ?_, ?_, deriveCash_preserves_isSome⟩
  · intro y pages hsec
    unfold parse_pdf
    rw [hsec]
  · intro y pages i t hsec hemp
    unfold parse_pdf
    rw [hsec]
    simp only [hemp, if_true]
  · intro y pages i t hsec hne
    unfold parse_pdf
    rw [hsec]
    simp only [hne, Bool.false_eq_true, if_false]
    exact ⟨_, rfl⟩

/-- C7 witness: a document with a composition section but no balance sheet
still yields a record, with `total_assets` absent. -/
theorem spec_orchestrator_fatality_witness :
    ∃ w, parse_pdf (some ("2022")) [("The composition of assets\nBonds 40%")] =
      some ({ year := "2022", total_assets := none,
              percentages := deriveCash (extract_percentages_from_text
                ("The composition of assets\nBonds 40%")) }, w) := by
  obtain ⟨w, hw⟩ := spec_orchestrator_fatality.2.2.2.1 ("2022")
    [("The composition of assets\nBonds 40%")] 0 ("The composition of assets\nBonds 40%")
    (by decide) (by decide)
  refine ⟨w, ?_⟩
  rw [hw]
  have hta : extract_total_assets_from_table [("The composition of assets\nBonds 40%")] =
      none := by decide
  rw [hta]

/-- C8: validation is advisory — whenever the orchestrator returns a record
at all, the percentage-total warning is attached exactly when the present
percentages' sum deviates from 100 by more than the tolerance, and the record
itself is returned either way; with tolerance 2.0 a sum of 97.5 warns and a
sum of 98.5 does not. -/
theorem spec_validation_advisory :
    (∀ y pages r w, parse_pdf y pages = some (r, w) →
      (PWarning.percentTotalDeviation ∈ w ↔ percentWarnB r.percentages = true)) ∧
    percentWarnB warnMapHigh = true ∧ percentWarnB warnMapLow = false := by
  refine ⟨?_, by decide, by decide⟩
  intro y pages r w h
  unfold parse_pdf at h
  split at h
  case h_1 => cases h
  case h_2 yr =>
    split at h
    case h_1 => cases h
    case h_2 i pageText heq =>
      dsimp only [] at h
      split at h
      · cases h
      · injection h with h'
        obtain ⟨hr, hw⟩ := Prod.mk.inj h'
        subst hr
        subst hw
        simp only [VALIDATE_PERCENTAGE_TOTAL, Bool.true_and, List.mem_append]
        by_cases hpw :
            percentWarnB (deriveCash (extract_percentages_from_text pageText)) = true
        · simp [hpw]
        · rw [Bool.not_eq_true] at hpw
          simp only [hpw, Bool.false_eq_true, if_false, List.not_mem_nil, or_false]
          constructor
          · intro hmem
            rcases hmem with hmem | hmem
            · split at hmem <;> simp at hmem
            · split at hmem <;> simp at hmem
          · intro hfalse
            cases hfalse

/-- C8 witness: a successful parse whose percentage sum (40) deviates from
100 by more than the tolerance carries the deviation warning. -/
theorem spec_validation_advisory_witness :
    percentWarnB (deriveCash (extract_percentages_from_text
      ("composition of assets\nBonds 40%"))) = true := by
  have h := spec_validation_advisory.1 (some ("2021")) [("composition of assets\nBonds 40%")]
    ({ year := "2021", total_assets := none,
       percentages := deriveCash (extract_percentages_from_text
         ("composition of assets\nBonds 40%")) })
    [PWarning.totalAssetsMissing, PWarning.percentTotalDeviation,
     PWarning.missingRequiredAssets]
    rfl
  exact h.mp (by decide)

/-- C9: the section locator returns the smallest-index page containing any
keyword case-insensitively, together with that page's text — no later
matching page is considered — and reports `NOT_FOUND` when no page matches;
`find_composition_section` is this locator at the configured keywords. -/
theorem spec_section_locator (kws : List String) (pages : List String) :
    (∀ i t, locateSection kws pages = some (i, t) ↔
      pages[i]? = some t ∧ pageMatches kws t = true ∧
        ∀ j, j < i → ∀ u, pages[j]? = some u → pageMatches kws u = false) ∧
    (locateSection kws pages = none ↔ ∀ t ∈ pages, pageMatches kws t = false) ∧
    find_composition_section pages = locateSection PDF_CHART_KEYWORDS pages :=
  ⟨fun i t => locateSection_some_iff kws pages i t, locateSection_none_iff kws pages, rfl⟩

/-- C9 witness: with a non-matching first page and two matching pages, the
locator returns the first matching page and its text. -/
theorem spec_section_locator_witness :
    locateSection PDF_CHART_KEYWORDS
      [("intro"), ("The composition of assets"), ("composition of assets again")] =
      some (1, ("The composition of assets")) := by
  refine ((spec_section_locator PDF_CHART_KEYWORDS _).1 1 _).mpr ⟨by decide, by decide, ?_⟩
  intro j hj u hu
  have hj0 : j = 0 := by omega
  subst hj0
  simp at hu
  rw [← hu]
  decide
